import Mathlib

/-!
Shallow embedding of the markdown-to-HTML core of the static site generator
(`src/htmlnode.py`, `src/blocktypes.py`).  Strings are modelled as Lean
`String`s and all scanning is done on their underlying `List Char`, so that
every definition is executable and kernel-reducible.
-/

deriving instance DecidableEq for Except

namespace SiteGen

/-! ## Python string primitives -/

/-- The whitespace class used by Python `str.strip` and the regex class `\s`
(restricted to its ASCII members, which are the only ones the repository's
inputs contain). -/
def isPySpace (c : Char) : Bool :=
  c = ' ' || c = '\t' || c = '\n' || c = '\r' || c = '\x0b' || c = '\x0c'

/-- ASCII decimal digit, the regex class `\d`. -/
def isDigitChar (c : Char) : Bool :=
  '0' ≤ c && c ≤ '9'

/-- Python `s.startswith(p)`. -/
def pyStartsWith (s p : String) : Bool :=
  p.data.isPrefixOf s.data

/-- Python `s.endswith(p)`. -/
def pyEndsWith (s p : String) : Bool :=
  p.data.isSuffixOf s.data

/-- Remove trailing characters satisfying `p`. -/
def rstripWhile (p : Char → Bool) (l : List Char) : List Char :=
  (l.reverse.dropWhile p).reverse

/-- Python `s.strip()`: remove whitespace from both ends. -/
def pyStrip (s : String) : String :=
  String.mk (rstripWhile isPySpace (s.data.dropWhile isPySpace))

/-- First occurrence of `sep` in `l`: returns the characters before the
occurrence and the characters after it. -/
def findSub (sep : List Char) : List Char → Option (List Char × List Char)
  | [] => if sep.isEmpty then some ([], []) else none
  | c :: cs =>
    if sep.isPrefixOf (c :: cs) then some ([], (c :: cs).drop sep.length)
    else
      match findSub sep cs with
      | some (b, a) => some (c :: b, a)
      | none => none

theorem findSub_length {sep : List Char} (hsep : sep ≠ []) :
    ∀ {l b a : List Char}, findSub sep l = some (b, a) → a.length < l.length := by
  intro l
  induction l with
  | nil =>
    intro b a h
    simp [findSub, List.isEmpty_iff, hsep] at h
  | cons c cs ih =>
    intro b a h
    rw [findSub] at h
    split at h
    · simp only [Option.some.injEq, Prod.mk.injEq] at h
      obtain ⟨hb, ha⟩ := h
      subst ha
      have hlen : 1 ≤ sep.length := by
        cases sep with
        | nil => exact absurd rfl hsep
        | cons _ _ => simp
      simp only [List.length_drop, List.length_cons]
      omega
    · split at h
      case h_1 b' a' hfs =>
        simp only [Option.some.injEq, Prod.mk.injEq] at h
        obtain ⟨hb, ha⟩ := h
        subst ha
        have := ih hfs
        simp only [List.length_cons]
        omega
      case h_2 => exact absurd h (by simp)

/-- Fuelled worker for Python `str.split(sep)` (nonempty separator): split on
every leftmost occurrence.  The fuel is always at least the length of the
remaining text, so the `0` case is unreachable. -/
def pySplitGo (sep : List Char) : Nat → List Char → List (List Char)
  | 0, l => [l]
  | fuel + 1, l =>
    match findSub sep l with
    | none => [l]
    | some (b, a) => b :: pySplitGo sep fuel a

/-- Python `s.split(sep)` for a nonempty separator (Python raises on an empty
separator; the repository only splits on `"\n\n"`, `"**"`, `"_"`, `` "`" ``). -/
def pySplit (s sep : String) : List String :=
  if sep.data.isEmpty then [s]
  else (pySplitGo sep.data s.data.length s.data).map String.mk

/-- Python `s.split(sep, 1)` reported as a `(before, after)` pair, with
`after = ""` when the separator does not occur. -/
def pySplitOnce (s sep : String) : String × String :=
  match findSub sep.data s.data with
  | some (b, a) => (String.mk b, String.mk a)
  | none => (s, "")

/-- Python substring test `sep in s`. -/
def pyContains (s sep : String) : Bool :=
  (findSub sep.data s.data).isSome

/-- Python `s.splitlines()` for `\n`-separated text: split on every newline,
except that a trailing newline does not produce a final empty line and the
empty string has no lines. -/
def pySplitlines (s : String) : List String :=
  if s.data.isEmpty then []
  else
    let parts := pySplit s "\n"
    if parts.getLast? = some "" then parts.dropLast else parts

/-! ## Text-node model

Modelled from the spec: the repository's `textnode.py` (the `TextType`
enumeration and the `TextNode` record with fields `text`, `text_type`, `url`)
is not among the provided sources; its shape is fixed by the spec's data
model and by every use site in `htmlnode.py` and `blocktypes.py`. -/

inductive TextType where
  | text | bold | italic | code | link | image
  deriving DecidableEq, Repr

structure TextNode where
  text : String
  text_type : TextType
  url : Option String
  deriving DecidableEq, Repr

/-! ## Inline extraction (`htmlnode.py`) -/

/-- The regex fragment `([^\[\]]*)\]`: scan characters other than `[`/`]` up
to a closing `]`, returning the label and the rest. -/
def scanLabel : List Char → Option (List Char × List Char)
  | [] => none
  | c :: cs =>
    if c = ']' then some ([], cs)
    else if c = '[' then none
    else
      match scanLabel cs with
      | some (lab, r) => some (c :: lab, r)
      | none => none

/-- The regex fragment `([^\(\)]*)\)`: scan characters other than `(`/`)` up
to a closing `)`. -/
def scanUrl : List Char → Option (List Char × List Char)
  | [] => none
  | c :: cs =>
    if c = ')' then some ([], cs)
    else if c = '(' then none
    else
      match scanUrl cs with
      | some (u, r) => some (c :: u, r)
      | none => none

/-- Match `\[([^\[\]]*)\]\(([^\(\)]*)\)` at the head of the input, returning
the two capture groups and the input after the match. -/
def tryPair : List Char → Option (String × String × List Char)
  | '[' :: rest =>
    match scanLabel rest with
    | some (lab, r1) =>
      match r1 with
      | '(' :: r2 =>
        match scanUrl r2 with
        | some (url, r3) => some (String.mk lab, String.mk url, r3)
        | none => none
      | _ => none
    | none => none
  | _ => none

theorem scanLabel_length :
    ∀ {l lab r : List Char}, scanLabel l = some (lab, r) → r.length < l.length := by
  intro l
  induction l with
  | nil => intro lab r h; simp [scanLabel] at h
  | cons c cs ih =>
    intro lab r h
    rw [scanLabel] at h
    split at h
    · simp only [Option.some.injEq, Prod.mk.injEq] at h
      obtain ⟨h1, h2⟩ := h
      subst h2; simp
    · split at h
      · exact absurd h (by simp)
      · split at h
        case h_1 lab' r' hs =>
          simp only [Option.some.injEq, Prod.mk.injEq] at h
          obtain ⟨h1, h2⟩ := h
          subst h2
          have := ih hs
          simp only [List.length_cons]
          omega
        case h_2 => exact absurd h (by simp)

theorem scanUrl_length :
    ∀ {l u r : List Char}, scanUrl l = some (u, r) → r.length < l.length := by
  intro l
  induction l with
  | nil => intro u r h; simp [scanUrl] at h
  | cons c cs ih =>
    intro u r h
    rw [scanUrl] at h
    split at h
    · simp only [Option.some.injEq, Prod.mk.injEq] at h
      obtain ⟨h1, h2⟩ := h
      subst h2; simp
    · split at h
      · exact absurd h (by simp)
      · split at h
        case h_1 u' r' hs =>
          simp only [Option.some.injEq, Prod.mk.injEq] at h
          obtain ⟨h1, h2⟩ := h
          subst h2
          have := ih hs
          simp only [List.length_cons]
          omega
        case h_2 => exact absurd h (by simp)

theorem tryPair_length :
    ∀ {l : List Char} {a u : String} {r : List Char},
      tryPair l = some (a, u, r) → r.length < l.length := by
  intro l a u r h
  unfold tryPair at h
  split at h
  case h_1 rest =>
    split at h
    case h_1 lab r1 hsl =>
      split at h
      case h_1 r2 =>
        split at h
        case h_1 url r3 hsu =>
          simp only [Option.some.injEq, Prod.mk.injEq] at h
          obtain ⟨h1, h2, h3⟩ := h
          subst h3
          have h4 := scanUrl_length hsu
          have h5 := scanLabel_length hsl
          simp only [List.length_cons] at h5 ⊢
          omega
        case h_2 => exact absurd h (by simp)
      case h_2 => exact absurd h (by simp)
    case h_2 => exact absurd h (by simp)
  case h_2 => exact absurd h (by simp)

/-- Fuelled scan of `re.findall(r"!\[([^\[\]]*)\]\(([^\(\)]*)\)", text)`:
try a match at every position from left to right; on success continue after
the match, otherwise advance one character.  Fuel is at least the length of
the remaining input, so the `0` case is unreachable. -/
def findImagesF : Nat → List Char → List (String × String)
  | 0, _ => []
  | _, [] => []
  | fuel + 1, c :: rest =>
    if c = '!' then
      match tryPair rest with
      | some (alt, url, r) => (alt, url) :: findImagesF fuel r
      | none => findImagesF fuel rest
    else findImagesF fuel rest

/-- `extract_markdown_images` from `htmlnode.py`. -/
def extract_markdown_images (text : String) : List (String × String) :=
  findImagesF text.data.length text.data

/-- Fuelled scan of `re.findall(r"(?<!!)\[([^\[\]]*)\]\(([^\(\)]*)\)", text)`.
`prev` is the character before the current position (`none` at the start of
the string), used for the negative lookbehind `(?<!!)`. -/
def findLinksF : Nat → Option Char → List Char → List (String × String)
  | 0, _, _ => []
  | _, _, [] => []
  | fuel + 1, prev, c :: rest =>
    if c = '[' && prev ≠ some '!' then
      match tryPair (c :: rest) with
      | some (lab, url, r) => (lab, url) :: findLinksF fuel (some ')') r
      | none => findLinksF fuel (some c) rest
    else findLinksF fuel (some c) rest

/-- `extract_markdown_links` from `htmlnode.py`. -/
def extract_markdown_links (text : String) : List (String × String) :=
  findLinksF text.data.length none text.data

/-! ## Inline node splitting (`htmlnode.py`) -/

/-- The per-match loop body of `split_nodes_image`: repeatedly split the
remaining text on the reconstructed markup `![alt](url)` of each extracted
pair, emitting the preceding plain text (when non-empty) and an image node;
the final remaining text (when non-empty) becomes a trailing plain node. -/
def consumeImages : String → List (String × String) → List TextNode
  | text, [] => if text = "" then [] else [⟨text, .text, none⟩]
  | text, (alt, url) :: rest =>
    let marker := "![" ++ alt ++ "](" ++ url ++ ")"
    let p := pySplitOnce text marker
    (if p.1 = "" then [] else [⟨p.1, .text, none⟩]) ++
      ⟨alt, .image, some url⟩ :: consumeImages p.2 rest

/-- `split_nodes_image` applied to one node. -/
def splitImageNode (node : TextNode) : List TextNode :=
  if node.text_type ≠ .text then [node]
  else
    let images := extract_markdown_images node.text
    if images.isEmpty then [node]
    else consumeImages node.text images

/-- `split_nodes_image` from `htmlnode.py`. -/
def split_nodes_image : List TextNode → List TextNode
  | [] => []
  | n :: ns => splitImageNode n ++ split_nodes_image ns

/-- The per-match loop body of `split_nodes_link`, splitting on `[label](url)`. -/
def consumeLinks : String → List (String × String) → List TextNode
  | text, [] => if text = "" then [] else [⟨text, .text, none⟩]
  | text, (lab, url) :: rest =>
    let marker := "[" ++ lab ++ "](" ++ url ++ ")"
    let p := pySplitOnce text marker
    (if p.1 = "" then [] else [⟨p.1, .text, none⟩]) ++
      ⟨lab, .link, some url⟩ :: consumeLinks p.2 rest

/-- `split_nodes_link` applied to one node. -/
def splitLinkNode (node : TextNode) : List TextNode :=
  if node.text_type ≠ .text then [node]
  else
    let links := extract_markdown_links node.text
    if links.isEmpty then [node]
    else consumeLinks node.text links

/-- `split_nodes_link` from `htmlnode.py`. -/
def split_nodes_link : List TextNode → List TextNode
  | [] => []
  | n :: ns => splitLinkNode n ++ split_nodes_link ns

/-- The index-parity loop of `split_nodes_delimiter`: even-indexed split
parts stay plain text (dropped when empty), odd-indexed parts become nodes
of the pass's type (kept even when empty). -/
def emitParts (tt : TextType) : List String → Bool → List TextNode
  | [], _ => []
  | p :: ps, false => (if p = "" then [] else [⟨p, .text, none⟩]) ++ emitParts tt ps true
  | p :: ps, true => ⟨p, tt, none⟩ :: emitParts tt ps false

/-- `split_nodes_delimiter` applied to one node: non-plain nodes and nodes
not containing the delimiter pass through; otherwise the text is split on the
delimiter, an even part count (odd delimiter count) is a syntax error, and
the parts are re-emitted alternating plain/typed. -/
def processDelimNode (delimiter : String) (text_type : TextType) (node : TextNode) :
    Except String (List TextNode) :=
  if node.text_type ≠ .text then .ok [node]
  else if ¬ pyContains node.text delimiter then .ok [node]
  else
    let parts := pySplit node.text delimiter
    if parts.length % 2 = 0 then .error "Invalid Markdown Syntax: unmatched delimiter"
    else .ok (emitParts text_type parts false)

/-- `split_nodes_delimiter` from `htmlnode.py`. -/
def split_nodes_delimiter (old_nodes : List TextNode) (delimiter : String)
    (text_type : TextType) : Except String (List TextNode) :=
  match old_nodes with
  | [] => .ok []
  | n :: ns => do
    let first ← processDelimNode delimiter text_type n
    let rest ← split_nodes_delimiter ns delimiter text_type
    return first ++ rest

/-- `text_to_textnodes` from `htmlnode.py`: image pass, link pass, then the
bold (`**`), italic (`_`) and code (`` ` ``) delimiter passes in that order. -/
def text_to_textnodes (text : String) : Except String (List TextNode) := do
  let nodes := [⟨text, .text, none⟩]
  let nodes := split_nodes_image nodes
  let nodes := split_nodes_link nodes
  let nodes ← split_nodes_delimiter nodes "**" .bold
  let nodes ← split_nodes_delimiter nodes "_" .italic
  let nodes ← split_nodes_delimiter nodes "`" .code
  return nodes

/-- `markdown_to_blocks` from `htmlnode.py`: split the document on blank
lines (`"\n\n"`), strip each block, drop the blocks that end up empty. -/
def markdown_to_blocks (markdown : String) : List String :=
  (pySplit markdown "\n\n").filterMap
    (fun block => if pyStrip block = "" then none else some (pyStrip block))

/-! ## HTML node model (`htmlnode.py`)

`HTMLNode` is a Python class with fields `tag`, `value`, `children`, `props`;
the two subclasses used by the program are `LeafNode` (no children) and
`ParentNode` (no value).  `HTMLNode.__init__` coerces a `None` children
argument to `[]` and a `None` props argument to `{}` (`children or []`,
`props or {}`), so the stored children field of a constructed node is never
`None`; the field is still modelled as an `Option` so that `to_html`'s
defensive `None` checks are expressible.  Props are an insertion-ordered
association list, matching Python dict iteration order. -/

inductive HTMLNode where
  | leaf (tag : Option String) (value : Option String) (props : List (String × String))
  | parent (tag : Option String) (children : Option (List HTMLNode))
      (props : List (String × String))

/-- `LeafNode.__init__`: raises when the value is `None`; `props or {}`. -/
def LeafNode.make (tag : Option String) (value : Option String)
    (props : Option (List (String × String))) : Except String HTMLNode :=
  if value = none then .error "Leafnode must have a value"
  else .ok (.leaf tag value (props.getD []))

/-- `ParentNode.__init__`: never raises; `children or []` coerces a `None`
children argument to the empty list, `props or {}` likewise. -/
def ParentNode.make (tag : Option String) (children : Option (List HTMLNode))
    (props : Option (List (String × String))) : HTMLNode :=
  .parent tag (some (children.getD [])) (props.getD [])

/-- Python `"".join(parts)`: concatenation with no separators. -/
def strConcat : List String → String
  | [] => ""
  | s :: ss => s ++ strConcat ss

/-- `HTMLNode.props_to_html`: for each attribute in insertion order, a single
leading space then `name="value"`, with no escaping. -/
def props_to_html (props : List (String × String)) : String :=
  if props.isEmpty then ""
  else strConcat (props.map (fun kv => " " ++ kv.1 ++ "=" ++ "\"" ++ kv.2 ++ "\""))

mutual

/-- `LeafNode.to_html` / `ParentNode.to_html`. -/
def to_html : HTMLNode → Except String String
  | .leaf _ none _ => .error "Leafnode must have a value"
  | .leaf none (some v) _ => .ok v
  | .leaf (some t) (some v) props =>
    .ok ("<" ++ t ++ props_to_html props ++ ">" ++ v ++ "</" ++ t ++ ">")
  | .parent none _ _ => .error "Parentnode must have a tag"
  | .parent (some _) none _ => .error "Parentnode must have children"
  | .parent (some t) (some children) props =>
    match childrenHtml children with
    | .error e => .error e
    | .ok s => .ok ("<" ++ t ++ props_to_html props ++ ">" ++ s ++ "</" ++ t ++ ">")

/-- `"".join([child.to_html() for child in self.children])`, with the first
raised error propagated. -/
def childrenHtml : List HTMLNode → Except String String
  | [] => .ok ""
  | c :: cs => do
    let s ← to_html c
    let rest ← childrenHtml cs
    return s ++ rest

end

/-- `text_node_to_html_node` from `htmlnode.py`.  (The Python `else` branch
raising `Unsupported TextType` is unreachable: `TextType` is a closed
enumeration and all six members are handled.)  A `None` url on a link or
image would be rendered by the f-string machinery as the text `None`; the
tokenizer always supplies a url for those kinds. -/
def text_node_to_html_node (text_node : TextNode) : HTMLNode :=
  match text_node.text_type with
  | .text => .leaf none (some text_node.text) []
  | .bold => .leaf (some "b") (some text_node.text) []
  | .italic => .leaf (some "i") (some text_node.text) []
  | .code => .leaf (some "code") (some text_node.text) []
  | .link => .leaf (some "a") (some text_node.text) [("href", text_node.url.getD "None")]
  | .image => .leaf (some "img") (some "")
      [("src", text_node.url.getD "None"), ("alt", text_node.text)]

/-! ## Block classification (`blocktypes.py`) -/

inductive BlockType where
  | paragraph | heading | code | quote | unordered_list | ordered_list
  deriving DecidableEq, Repr

/-- The regex check `re.match(r'^(#{1,6})\s', block)`: between one and six
leading `#` characters followed by a whitespace character.  Returns the
heading level.  (Greedy `#{1,6}` backtracking never helps: with a run of
`r` leading hashes, only consuming exactly `min(r, 6) = r` hashes can put a
non-`#` character after the group, so the match succeeds exactly when
`1 ≤ r ≤ 6` and the character after the run is whitespace.) -/
def headingLevel (l : List Char) : Option Nat :=
  let r := (l.takeWhile (· = '#')).length
  if 1 ≤ r ∧ r ≤ 6 then
    match l.drop r with
    | c :: _ => if isPySpace c then some r else none
    | [] => none
  else none

/-- Decimal value of a digit run. -/
def digitsToNat (ds : List Char) : Nat :=
  ds.foldl (fun n c => n * 10 + (c.toNat - 48)) 0

/-- The regex check `re.match(r'^(\d+)\.\s', line)`: a maximal nonempty run
of digits, a literal dot, then a whitespace character; returns the integer
value of the digit run. -/
def lineNumber (line : String) : Option Nat :=
  let ds := line.data.takeWhile isDigitChar
  if ds.isEmpty then none
  else
    match line.data.drop ds.length with
    | '.' :: c :: _ => if isPySpace c then some (digitsToNat ds) else none
    | _ => none

/-- The ordered-list loop of `block_to_block_type`: every line carries the
expected number, counting up from `expected`. -/
def orderedFrom (expected : Nat) : List String → Bool
  | [] => true
  | line :: rest =>
    match lineNumber line with
    | some n => n = expected && orderedFrom (expected + 1) rest
    | none => false

/-- `block_to_block_type` from `blocktypes.py`: an ordered decision list. -/
def block_to_block_type (block : String) : BlockType :=
  if pyStartsWith block "```" && pyEndsWith block "```" then .code
  else if (headingLevel block.data).isSome then .heading
  else
    let lines := pySplitlines block
    if !lines.isEmpty && lines.all (fun line => pyStartsWith line ">") then .quote
    else if !lines.isEmpty && lines.all (fun line => pyStartsWith line "- ") then
      .unordered_list
    else if !lines.isEmpty && orderedFrom 1 lines then .ordered_list
    else .paragraph

/-! ## Block assembly (`blocktypes.py`) -/

/-- `text_to_children` from `blocktypes.py`: tokenize an inline string and
map each text node to an HTML leaf. -/
def text_to_children (text : String) : Except String (List HTMLNode) :=
  (text_to_textnodes text).map (fun tns => tns.map text_node_to_html_node)

/-- Python `line[2:]`. -/
def strDropTwo (s : String) : String :=
  String.mk (s.data.drop 2)

/-- The regex `re.match(r'^(#{1,6})\s+(.*)', block)` capture of group 2:
after the hashes, the greedy `\s+` consumes the maximal whitespace run
(which may cross line breaks, since `\s` matches `\n`), and `(.*)` then
captures up to the next newline or the end of the string. -/
def headingRest (l : List Char) (level : Nat) : String :=
  String.mk (((l.drop level).dropWhile isPySpace).takeWhile (· ≠ '\n'))

/-- The regex `re.match(r'^(\d+)\.\s+(.*)', line)` capture of group 2 (the
classifier has already validated the `^(\d+)\.\s` part for ordered-list
blocks, but the assembler re-matches each line and skips lines that fail). -/
def orderedItemRest (line : String) : Option String :=
  let ds := line.data.takeWhile isDigitChar
  if ds.isEmpty then none
  else
    match line.data.drop ds.length with
    | '.' :: rest =>
      match rest with
      | c :: _ =>
        if isPySpace c then
          some (String.mk ((rest.dropWhile isPySpace).takeWhile (· ≠ '\n')))
        else none
      | [] => none
    | _ => none

/-- Sequential effectful map, the shape of Python's accumulating `for` loops
(the first raised exception aborts the whole loop). -/
def mapMExcept {α β : Type} (f : α → Except String β) : List α → Except String (List β)
  | [] => .ok []
  | a :: as => do
    let b ← f a
    let bs ← mapMExcept f as
    return b :: bs

/-- Sequential effectful map for loops whose body may skip an element (the
`ul`/`ol` loops skip lines that fail their line pattern). -/
def filterMapExcept {α β : Type} (f : α → Except String (Option β)) :
    List α → Except String (List β)
  | [] => .ok []
  | a :: as => do
    let ob ← f a
    let bs ← filterMapExcept f as
    return (match ob with
      | some b => b :: bs
      | none => bs)

/-- The body of the per-block loop of `markdown_to_html_node`: convert one
classified block into its HTML subtree. -/
def blockToHtmlNode (block : String) : Except String HTMLNode :=
  match block_to_block_type block with
  | .code =>
    let lines := pySplitlines block
    let lines1 :=
      match lines with
      | [] => []
      | l :: rest => if pyStartsWith l "```" then rest else l :: rest
    let lines2 :=
      match lines1.getLast? with
      | some l => if pyStartsWith l "```" then lines1.dropLast else lines1
      | none => lines1
    let content := String.intercalate "\n" lines2
    let content := if content ≠ "" ∧ ¬ pyEndsWith content "\n" then content ++ "\n" else content
    .ok (.parent (some "pre") (some [.leaf (some "code") (some content) []]) [])
  | .heading =>
    match headingLevel block.data with
    | some level =>
      (text_to_children (headingRest block.data level)).map
        (fun children => .parent (some ("h" ++ toString level)) (some children) [])
    | none =>
      (text_to_children block).map (fun children => .parent (some "p") (some children) [])
  | .quote =>
    let content := String.intercalate "\n"
      ((pySplitlines block).map (fun line => pyStrip (String.mk (line.data.dropWhile (· = '>')))))
    (text_to_children content).map
      (fun children => .parent (some "blockquote") (some children) [])
  | .unordered_list => do
    let items ← filterMapExcept (fun line =>
      if pyStartsWith line "- " then
        (text_to_children (pyStrip (strDropTwo line))).map
          (fun children => some (HTMLNode.parent (some "li") (some children) []))
      else pure none) (pySplitlines block)
    return .parent (some "ul") (some items) []
  | .ordered_list => do
    let items ← filterMapExcept (fun line =>
      match orderedItemRest line with
      | some rest =>
        (text_to_children (pyStrip rest)).map
          (fun children => some (HTMLNode.parent (some "li") (some children) []))
      | none => pure none) (pySplitlines block)
    return .parent (some "ol") (some items) []
  | .paragraph =>
    let normalized := String.intercalate " " (pySplitlines block)
    (text_to_children normalized).map
      (fun children => .parent (some "p") (some children) [])

/-- `markdown_to_html_node` from `blocktypes.py`: split into blocks, convert
each block, wrap all subtrees in a root `div`. -/
def markdown_to_html_node (markdown : String) : Except String HTMLNode :=
  (mapMExcept blockToHtmlNode (markdown_to_blocks markdown)).map
    (fun block_nodes => .parent (some "div") (some block_nodes) [])

/-- The whole-document conversion: `markdown_to_html_node(md).to_html()`,
the composition `main.py` applies to each content file. -/
def renderDocument (markdown : String) : Except String String :=
  markdown_to_html_node markdown >>= to_html

/-! ## Helper lemmas -/

theorem childrenHtml_eq_mapM (cs : List HTMLNode) :
    childrenHtml cs = (mapMExcept to_html cs).map strConcat := by
  induction cs with
  | nil => rfl
  | cons c cs ih =>
    rw [childrenHtml, mapMExcept]
    cases hc : to_html c with
    | error e => simp [hc, Bind.bind, Except.bind, Except.map]
    | ok s =>
      rw [ih]
      cases hcs : mapMExcept to_html cs with
      | error e => simp [hc, hcs, Bind.bind, Except.bind, Except.map]
      | ok rs =>
        simp [hc, hcs, Bind.bind, Except.bind, Except.map, Pure.pure, Except.pure, strConcat]

theorem mapMExcept_ok_length {α β : Type} (f : α → Except String β) :
    ∀ {l : List α} {rs : List β}, mapMExcept f l = .ok rs → rs.length = l.length := by
  intro l
  induction l with
  | nil =>
    intro rs h
    simp only [mapMExcept, Except.ok.injEq] at h
    subst h; rfl
  | cons a as ih =>
    intro rs h
    rw [mapMExcept] at h
    cases hfa : f a with
    | error e => simp [hfa, Bind.bind, Except.bind] at h
    | ok b =>
      cases hfs : mapMExcept f as with
      | error e => simp [hfa, hfs, Bind.bind, Except.bind] at h
      | ok bs =>
        simp only [hfa, hfs, Bind.bind, Except.bind, Pure.pure, Except.pure,
          Except.ok.injEq] at h
        subst h
        simp [ih hfs]

/-- Number of direct children of a node (`len(node.children)`). -/
def HTMLNode.childCount : HTMLNode → Nat
  | .parent _ (some cs) _ => cs.length
  | _ => 0

/-! ## Claims -/

/-- Claim C2, counterexample: constructing a `ParentNode` with a null
children sequence does not fail — it produces a usable node, whose rendering
even succeeds (`<div></div>`), because `HTMLNode.__init__` coerces `None`
children to `[]` and `ParentNode.__init__` performs no check at all. -/
theorem claim_C2_counterexample :
    to_html (ParentNode.make (some "div") none none) = .ok "<div></div>" := by decide

/-- Claim C2, amended: `ParentNode` construction never fails.  A null `tag`
is only detected when rendering, which then fails with the structural
`ValueError`; a null `children` argument is silently coerced to the empty
list at construction, so the renderer's children check never fires and such
a node renders as `<tag></tag>`. -/
theorem claim_C2_amended :
    (∀ (children : Option (List HTMLNode)) (props : Option (List (String × String))),
        to_html (ParentNode.make none children props) = .error "Parentnode must have a tag")
    ∧ (∀ (tag : String) (props : Option (List (String × String))),
        ParentNode.make (some tag) none props =
          HTMLNode.parent (some tag) (some []) (props.getD []))
    ∧ (∀ tag : String, to_html (ParentNode.make (some tag) none none) =
        .ok ("<" ++ tag ++ "></" ++ tag ++ ">")) := by
  refine ⟨fun children props => rfl, fun tag props => rfl, fun tag => ?_⟩
  show Except.ok ("<" ++ tag ++ props_to_html [] ++ ">" ++ "" ++ "</" ++ tag ++ ">") = _
  congr 1
  apply String.ext
  simp [props_to_html]

/-- Claim C8: rendering is format-exact.  A leaf with a null tag renders as
its raw value; a leaf with a tag renders as `<tag attrs>value</tag>`; a
parent renders as `<tag attrs>`, the children's rendered outputs
concatenated with no separators, then `</tag>`; each attribute is
serialized, in insertion order, as a single leading space followed by
`name="value"` with no escaping. -/
theorem claim_C8 :
    (∀ (v : String) (props : List (String × String)),
        to_html (.leaf none (some v) props) = .ok v)
    ∧ (∀ (t v : String) (props : List (String × String)),
        to_html (.leaf (some t) (some v) props) =
          .ok ("<" ++ t ++ props_to_html props ++ ">" ++ v ++ "</" ++ t ++ ">"))
    ∧ (∀ (t : String) (cs : List HTMLNode) (props : List (String × String)),
        to_html (.parent (some t) (some cs) props) =
          (mapMExcept to_html cs).map
            (fun rs => "<" ++ t ++ props_to_html props ++ ">" ++ strConcat rs ++
              "</" ++ t ++ ">"))
    ∧ (∀ props : List (String × String),
        props_to_html props =
          strConcat (props.map (fun kv => " " ++ kv.1 ++ "=" ++ "\"" ++ kv.2 ++ "\""))) := by
  refine ⟨fun v props => rfl, fun t v props => rfl, fun t cs props => ?_, fun props => ?_⟩
  · rw [to_html, childrenHtml_eq_mapM]
    cases h : mapMExcept to_html cs with
    | error e => simp [h, Except.map]
    | ok rs => simp [h, Except.map]
  · cases props with
    | nil => rfl
    | cons kv ps => rfl

/-- Claim C10: any block that both starts and ends with three backticks is
classified as Code, including the single-line block of exactly three
backticks (where the two markers overlap); assembling that block yields an
empty `code` leaf inside a `pre` parent, with no trailing newline added. -/
theorem claim_C10 :
    (∀ block : String, pyStartsWith block "```" = true → pyEndsWith block "```" = true →
        block_to_block_type block = .code)
    ∧ block_to_block_type "```" = .code
    ∧ blockToHtmlNode "```" =
        .ok (.parent (some "pre") (some [.leaf (some "code") (some "") []]) []) := by
  refine ⟨fun block h1 h2 => ?_, by decide, by rfl⟩
  rw [block_to_block_type, h1, h2]
  rfl

/-- Witness for the quantified part of C10 at the concrete block `` ``` ``. -/
theorem claim_C10_witness :
    pyStartsWith "```" "```" = true ∧ pyEndsWith "```" "```" = true ∧
      block_to_block_type "```" = .code :=
  ⟨by decide, by decide, claim_C10.1 "```" (by decide) (by decide)⟩

/-- Claim C4: for every document, the block splitter returns exactly as many
blocks as the root `div` returned by `markdown_to_html_node` has direct
children — each block contributes exactly one top-level subtree. -/
theorem claim_C4 :
    ∀ (markdown : String) (root : HTMLNode),
      markdown_to_html_node markdown = .ok root →
      root.childCount = (markdown_to_blocks markdown).length := by
  intro md root h
  unfold markdown_to_html_node at h
  cases hm : mapMExcept blockToHtmlNode (markdown_to_blocks md) with
  | error e => rw [hm] at h; exact absurd h (by simp [Except.map])
  | ok ns =>
    rw [hm] at h
    simp only [Except.map, Except.ok.injEq] at h
    subst h
    show ns.length = _
    exact mapMExcept_ok_length _ hm

/-- Witness for C4 on the concrete two-block document `"# T\n\npara"`. -/
theorem claim_C4_witness :
    HTMLNode.childCount
        (.parent (some "div")
          (some [.parent (some "h1") (some [.leaf none (some "T") []]) [],
            .parent (some "p") (some [.leaf none (some "para") []]) []]) []) =
      (markdown_to_blocks "# T\n\npara").length :=
  claim_C4 "# T\n\npara" _ (by rfl)

/-- Claim C3, counterexample: on the quote block `">>a"` the assembler
strips ALL leading `>` characters (Python `line.lstrip(">")`), producing the
child text `"a"`, whereas stripping exactly one leading `>` (as claimed)
would produce `">a"`. -/
theorem claim_C3_counterexample :
    block_to_block_type ">>a" = .quote
    ∧ blockToHtmlNode ">>a" =
        .ok (.parent (some "blockquote") (some [.leaf none (some "a") []]) [])
    ∧ (text_to_children ">a").map
        (fun children => HTMLNode.parent (some "blockquote") (some children) []) =
        .ok (.parent (some "blockquote") (some [.leaf none (some ">a") []]) [])
    ∧ (HTMLNode.leaf none (some "a") [] : HTMLNode) ≠ .leaf none (some ">a") [] :=
  ⟨by decide, by rfl, by rfl, by simp⟩

/-- Claim C3, amended: for every Quote block the assembler strips ALL
leading `>` characters (not exactly one) and then surrounding whitespace
from every line, rejoins the lines with newlines, tokenizes the joined text
and wraps the children in a single `blockquote` parent; a line beginning
with multiple `>` characters loses all of them. -/
theorem claim_C3_amended :
    ∀ block : String, block_to_block_type block = .quote →
      blockToHtmlNode block =
        (text_to_children (String.intercalate "\n"
          ((pySplitlines block).map
            (fun line => pyStrip (String.mk (line.data.dropWhile (· = '>'))))))).map
          (fun children => .parent (some "blockquote") (some children) []) := by
  intro block h
  unfold blockToHtmlNode
  rw [h]

/-- Witness for C3 on the concrete quote block `"> q\n>> r"`. -/
theorem claim_C3_witness :
    block_to_block_type "> q\n>> r" = .quote
    ∧ blockToHtmlNode "> q\n>> r" =
        (text_to_children (String.intercalate "\n"
          ((pySplitlines "> q\n>> r").map
            (fun line => pyStrip (String.mk (line.data.dropWhile (· = '>'))))))).map
          (fun children => .parent (some "blockquote") (some children) []) :=
  ⟨by decide, claim_C3_amended "> q\n>> r" (by decide)⟩

/-- Code-block content assembly as the spec words it: strip the opening and
closing triple-backtick lines (first and last line, when so marked), join
the remaining lines with newline separators, and append a trailing newline
when the non-empty result lacks one. -/
def spec_code_content (block : String) : String :=
  let lines := pySplitlines block
  let withoutOpen :=
    match lines with
    | [] => []
    | first :: rest => if pyStartsWith first "```" then rest else first :: rest
  let withoutClose :=
    match withoutOpen.getLast? with
    | some last => if pyStartsWith last "```" then withoutOpen.dropLast else withoutOpen
    | none => withoutOpen
  let joined := String.intercalate "\n" withoutClose
  if joined ≠ "" ∧ ¬ pyEndsWith joined "\n" then joined ++ "\n" else joined

/-- Claim C7: every Code block is assembled by stripping the fence lines,
joining the remaining lines with newlines, appending a trailing newline when
the non-empty result lacks one, and wrapping the content — with no inline
tokenizing — as a `code` leaf inside a `pre` parent; the document
`"```\ncode line\n```"` renders exactly as
`<div><pre><code>code line\n</code></pre></div>`. -/
theorem claim_C7 :
    (∀ block : String, block_to_block_type block = .code →
        blockToHtmlNode block =
          .ok (.parent (some "pre")
            (some [.leaf (some "code") (some (spec_code_content block)) []]) []))
    ∧ renderDocument "```\ncode line\n```" =
        .ok "<div><pre><code>code line\n</code></pre></div>" := by
  refine ⟨fun block h => ?_, by decide⟩
  unfold blockToHtmlNode
  rw [h]
  rfl

/-- Witness for C7 on the concrete code block `"```\nx\n```"`. -/
theorem claim_C7_witness :
    block_to_block_type "```\nx\n```" = .code
    ∧ blockToHtmlNode "```\nx\n```" =
        .ok (.parent (some "pre")
          (some [.leaf (some "code") (some (spec_code_content "```\nx\n```")) []]) []) :=
  ⟨by decide, claim_C7.1 "```\nx\n```" (by decide)⟩

theorem takeWhile_append_of_all {p : Char → Bool} :
    ∀ {l1 l2 : List Char}, (∀ c ∈ l1, p c = true) →
      (l1 ++ l2).takeWhile p = l1 ++ l2.takeWhile p := by
  intro l1
  induction l1 with
  | nil => intro l2 _; simp
  | cons c cs ih =>
    intro l2 hall
    have hc : p c = true := hall c (by simp)
    simp only [List.cons_append, List.takeWhile_cons, hc, if_pos]
    rw [ih (fun x hx => hall x (by simp [hx]))]

theorem dropWhile_append_of_exists {p : Char → Bool} :
    ∀ {l1 l2 : List Char}, (∃ c ∈ l1, p c = false) →
      (l1 ++ l2).dropWhile p = l1.dropWhile p ++ l2 := by
  intro l1
  induction l1 with
  | nil => intro l2 h; simp at h
  | cons c cs ih =>
    intro l2 hex
    by_cases hc : p c = true
    · simp only [List.cons_append, List.dropWhile_cons, hc, if_pos]
      apply ih
      obtain ⟨d, hd, hpd⟩ := hex
      rcases List.mem_cons.mp hd with hd | hd
      · subst hd; rw [hc] at hpd; exact absurd hpd (by simp)
      · exact ⟨d, hd, hpd⟩
    · have hc' : p c = false := by simpa using hc
      simp [List.dropWhile_cons, hc']

theorem mem_takeWhile_pred {p : Char → Bool} :
    ∀ {l : List Char} {c : Char}, c ∈ l.takeWhile p → p c = true := by
  intro l
  induction l with
  | nil => intro c h; simp at h
  | cons d ds ih =>
    intro c h
    by_cases hd : p d = true
    · rw [List.takeWhile_cons, if_pos hd] at h
      rcases List.mem_cons.mp h with h | h
      · subst h; exact hd
      · exact ih h
    · rw [List.takeWhile_cons, if_neg hd] at h
      simp at h

theorem dropWhile_head_false {p : Char → Bool} :
    ∀ {l cs : List Char} {c : Char}, l.dropWhile p = c :: cs → p c = false := by
  intro l
  induction l with
  | nil => intro cs c h; simp at h
  | cons d ds ih =>
    intro cs c h
    by_cases hd : p d = true
    · rw [List.dropWhile_cons, if_pos hd] at h
      exact ih h
    · rw [List.dropWhile_cons, if_neg hd] at h
      obtain ⟨h1, h2⟩ := List.cons.injEq _ _ _ _ ▸ h
      subst h1
      simpa using hd

theorem headingLevel_head : ∀ {l : List Char} {r : Nat},
    headingLevel l = some r → ∃ tl, l = '#' :: tl := by
  intro l r h
  simp only [headingLevel] at h
  split at h
  case isTrue hr =>
    cases l with
    | nil => simp at hr
    | cons c tl =>
      by_cases hc : c = '#'
      · exact ⟨tl, by rw [hc]⟩
      · exfalso
        have hz : (List.takeWhile (fun x => decide (x = '#')) (c :: tl)).length = 0 := by
          simp [List.takeWhile_cons, hc]
        rw [hz] at hr
        omega
  case isFalse => exact absurd h (by simp)

theorem headingLevel_block_type {block : String} {r : Nat}
    (h : headingLevel block.data = some r) : block_to_block_type block = .heading := by
  obtain ⟨tl, htl⟩ := headingLevel_head h
  rw [block_to_block_type]
  have hcode : pyStartsWith block "```" = false := by
    show ("```".data.isPrefixOf block.data) = false
    rw [htl]
    rfl
  rw [hcode]
  simp only [Bool.false_and, if_neg, Bool.false_eq_true, not_false_iff]
  rw [h]
  rfl

theorem headingRest_first_line {block : String} {r : Nat}
    (hnws : ∃ c ∈ (block.data.takeWhile (· ≠ '\n')).drop r, isPySpace c = false) :
    headingRest block.data r =
      String.mk (((block.data.takeWhile (· ≠ '\n')).drop r).dropWhile isPySpace) := by
  have hsplit : block.data =
      block.data.takeWhile (fun x => decide (x ≠ '\n')) ++
        block.data.dropWhile (fun x => decide (x ≠ '\n')) :=
    (List.takeWhile_append_dropWhile _ _).symm
  have hr : r ≤ (block.data.takeWhile (fun x => decide (x ≠ '\n'))).length := by
    obtain ⟨c, hc, _⟩ := hnws
    have hne : (block.data.takeWhile (fun x => decide (x ≠ '\n'))).drop r ≠ [] := by
      intro hnil
      rw [hnil] at hc
      simp at hc
    have hpos := List.length_pos.mpr hne
    simp only [List.length_drop] at hpos
    omega
  rw [headingRest]
  conv_lhs => rw [hsplit]
  rw [List.drop_append_of_le_length hr, dropWhile_append_of_exists hnws]
  have htake : ∀ c ∈ ((block.data.takeWhile (fun x => decide (x ≠ '\n'))).drop r).dropWhile
      isPySpace, (fun x => decide (x ≠ '\n')) c = true := by
    intro c hc
    have hmem : c ∈ block.data.takeWhile (fun x => decide (x ≠ '\n')) :=
      (List.drop_sublist r _).subset ((List.dropWhile_sublist _).subset hc)
    exact mem_takeWhile_pred hmem
  rw [takeWhile_append_of_all htake]
  have hDtake : (block.data.dropWhile (fun x => decide (x ≠ '\n'))).takeWhile
      (fun x => decide (x ≠ '\n')) = [] := by
    cases hDc : block.data.dropWhile (fun x => decide (x ≠ '\n')) with
    | nil => simp
    | cons c cs =>
      have hhead := dropWhile_head_false hDc
      have hc : c = '\n' := by simpa using hhead
      simp [List.takeWhile_cons, hc]
  rw [hDtake, List.append_nil]

/-- Claim C9, counterexample: the heading block `"# \nx"` (first line `"# "`,
one `#` followed by whitespace) is assembled as `<h1>` whose child is the
text `"x"` from the SECOND line — the greedy `\s+` of
`re.match(r'^(#{1,6})\s+(.*)', block)` crosses the newline when the first
line holds nothing but whitespace after the marker.  Producing the children
from the remainder of the first line would instead give no children (from
the remainder `""` after the marker and whitespace) or a lone `" "` text
child (from the remainder `" "` after the marker alone). -/
theorem claim_C9_counterexample :
    block_to_block_type "# \nx" = .heading
    ∧ blockToHtmlNode "# \nx" =
        .ok (.parent (some "h1") (some [.leaf none (some "x") []]) [])
    ∧ (text_to_children "").map
        (fun children => HTMLNode.parent (some "h1") (some children) []) =
        .ok (.parent (some "h1") (some [.leaf none (some "") []]) [])
    ∧ (text_to_children " ").map
        (fun children => HTMLNode.parent (some "h1") (some children) []) =
        .ok (.parent (some "h1") (some [.leaf none (some " ") []]) [])
    ∧ ([HTMLNode.leaf none (some "x") []] ≠ [HTMLNode.leaf none (some "") []])
    ∧ ([HTMLNode.leaf none (some "x") []] ≠ [HTMLNode.leaf none (some " ") []]) :=
  ⟨by decide, by rfl, by rfl, by rfl, by simp, by simp⟩

/-- Claim C9, amended: for a block classified Heading with level `N`, the
`h{N}` children are produced from the text that follows the maximal
whitespace run after the `#` marker, up to the end of that line, and
everything after that line is silently dropped.  Whenever the first line
contains any non-whitespace character after the marker (the hypothesis
below), this coincides with the original claim: the children come solely
from the remainder of the first line and every subsequent line is dropped;
the counterexample shows the whitespace-only exception.  (An inline string
that tokenizes to an empty children list cannot arise here: tokenizing
`""` still yields one empty plain node.) -/
theorem claim_C9_amended :
    ∀ (block : String) (level : Nat), headingLevel block.data = some level →
      (∃ c ∈ (block.data.takeWhile (· ≠ '\n')).drop level, isPySpace c = false) →
      blockToHtmlNode block =
        (text_to_children (String.mk
          (((block.data.takeWhile (· ≠ '\n')).drop level).dropWhile isPySpace))).map
          (fun children => .parent (some ("h" ++ toString level)) (some children) []) := by
  intro block level h hnws
  rw [blockToHtmlNode, headingLevel_block_type h]
  rw [h]
  show (text_to_children (headingRest block.data level)).map
      (fun children => HTMLNode.parent (some ("h" ++ toString level)) (some children) []) = _
  rw [headingRest_first_line hnws]

/-- Witness for C9 on the concrete heading block `"# Title\nmore"`. -/
theorem claim_C9_witness :
    headingLevel ("# Title\nmore").data = some 1
    ∧ blockToHtmlNode "# Title\nmore" =
        (text_to_children (String.mk
          (((("# Title\nmore").data.takeWhile (· ≠ '\n')).drop 1).dropWhile isPySpace))).map
          (fun children => .parent (some ("h" ++ toString 1)) (some children) []) :=
  ⟨by decide, claim_C9_amended "# Title\nmore" 1 (by decide) (by decide)⟩

theorem pySplitGo_ne_nil (sep : List Char) (fuel : Nat) (l : List Char) :
    pySplitGo sep fuel l ≠ [] := by
  cases fuel with
  | zero => simp [pySplitGo]
  | succ n =>
    rw [pySplitGo]
    cases findSub sep l with
    | none => simp
    | some p => cases p; simp

theorem findSub_singleton_some_before {ch : Char} :
    ∀ {l bf af : List Char}, findSub [ch] l = some (bf, af) →
      bf = l.takeWhile (fun c => decide (c ≠ ch)) := by
  intro l
  induction l with
  | nil => intro bf af h; simp [findSub] at h
  | cons c cs ih =>
    intro bf af h
    rw [findSub] at h
    split at h
    case isTrue hp =>
      have hc : c = ch := by
        simp only [List.isPrefixOf_cons₂, List.isPrefixOf_nil_left, Bool.and_true,
          beq_iff_eq] at hp
        exact hp.symm
      simp only [Option.some.injEq, Prod.mk.injEq] at h
      obtain ⟨hbf, _⟩ := h
      subst hbf
      rw [List.takeWhile_cons, hc]
      simp
    case isFalse hp =>
      have hc : c ≠ ch := by
        intro hceq
        exact hp (by simp [hceq, List.isPrefixOf_cons₂])
      split at h
      case h_1 b' a' hfs =>
        simp only [Option.some.injEq, Prod.mk.injEq] at h
        obtain ⟨hbf, _⟩ := h
        subst hbf
        rw [ih hfs]
        simp [List.takeWhile_cons, hc]
      case h_2 => exact absurd h (by simp)

theorem findSub_singleton_none_take {ch : Char} :
    ∀ {l : List Char}, findSub [ch] l = none →
      l.takeWhile (fun c => decide (c ≠ ch)) = l := by
  intro l
  induction l with
  | nil => intro _; simp
  | cons c cs ih =>
    intro h
    rw [findSub] at h
    split at h
    case isTrue hp => exact absurd h (by simp)
    case isFalse hp =>
      have hc : c ≠ ch := by
        intro hceq
        exact hp (by simp [hceq, List.isPrefixOf_cons₂])
      split at h
      case h_1 b' a' hfs => exact absurd h (by simp)
      case h_2 hfs =>
        rw [List.takeWhile_cons, if_pos (by simp [hc]), ih hfs]

theorem string_data_ne_nil {s : String} (h : s ≠ "") : s.data ≠ [] := by
  intro hd
  exact h (by cases s; simp_all)

theorem pySplitlines_head {b : String} (hb : b.data ≠ []) :
    ∃ ls, pySplitlines b =
      String.mk (b.data.takeWhile (fun c => decide (c ≠ '\n'))) :: ls := by
  have hEmpty : b.data.isEmpty = false := by simpa [List.isEmpty_iff] using hb
  rw [pySplitlines, hEmpty]
  simp only [Bool.false_eq_true, if_false]
  have hps : pySplit b "\n" = (pySplitGo ['\n'] b.data.length b.data).map String.mk := rfl
  rw [hps]
  cases hbd : b.data with
  | nil => exact absurd hbd hb
  | cons c0 cs0 =>
    simp only [List.length_cons, pySplitGo]
    cases hfs : findSub ['\n'] (c0 :: cs0) with
    | none =>
      have htake := findSub_singleton_none_take hfs
      simp only [List.map_cons, List.map_nil]
      have hne : String.mk (c0 :: cs0) ≠ "" := by
        intro he
        have hdata : c0 :: cs0 = ([] : List Char) := congrArg String.data he
        exact List.cons_ne_nil c0 cs0 hdata
      rw [if_neg (by simp [List.getLast?, hne])]
      exact ⟨[], by rw [htake]⟩
    | some p =>
      obtain ⟨bf, af⟩ := p
      have hbf := findSub_singleton_some_before hfs
      simp only [List.map_cons]
      cases hgo : (pySplitGo ['\n'] cs0.length af).map String.mk with
      | nil => exact absurd (by simpa using hgo) (pySplitGo_ne_nil ['\n'] cs0.length af)
      | cons t ts =>
        split
        · exact ⟨(t :: ts).dropLast, by rw [List.dropLast_cons₂, hbf]⟩
        · exact ⟨t :: ts, by rw [hbf]⟩

theorem takeWhile_head {p : Char → Bool} :
    ∀ {l : List Char} {d : Char} {r : List Char}, l.takeWhile p = d :: r →
      ∃ tl, l = d :: tl ∧ p d = true := by
  intro l d r h
  cases l with
  | nil => simp at h
  | cons c cs =>
    rw [List.takeWhile_cons] at h
    by_cases hc : p c = true
    · rw [if_pos hc] at h
      obtain ⟨h1, _⟩ := List.cons.injEq _ _ _ _ ▸ h
      subst h1
      exact ⟨cs, rfl, hc⟩
    · rw [if_neg hc] at h
      simp at h

theorem lineNumber_head {line : String} {n : Nat} (h : lineNumber line = some n) :
    ∃ d tl, line.data = d :: tl ∧ isDigitChar d = true := by
  simp only [lineNumber] at h
  split at h
  case isTrue => exact absurd h (by simp)
  case isFalse hne =>
    cases htw : (line.data.takeWhile isDigitChar) with
    | nil => rw [htw] at hne; simp at hne
    | cons d r =>
      obtain ⟨tl, htl, hd⟩ := takeWhile_head htw
      exact ⟨d, tl, htl, hd⟩

theorem digit_head_ne {d : Char} (h : isDigitChar d = true) (c : Char)
    (hc : isDigitChar c = false) : c ≠ d := by
  intro he
  rw [he, h] at hc
  exact absurd hc (by simp)

theorem pyStartsWith_head_false {s : String} {d : Char} {tl : List Char}
    (hs : s.data = d :: tl) {p : String} {c : Char} {ptl : List Char}
    (hp : p.data = c :: ptl) (hne : c ≠ d) : pyStartsWith s p = false := by
  rw [pyStartsWith, hs, hp, List.isPrefixOf_cons₂]
  have hbe : (c == d) = false := by simpa using hne
  rw [hbe, Bool.false_and]

theorem headingLevel_none_of_head {l : List Char} {d : Char} {tl : List Char}
    (hl : l = d :: tl) (hne : d ≠ '#') : headingLevel l = none := by
  subst hl
  simp only [headingLevel, List.takeWhile_cons]
  have hd : decide (d = '#') = false := by simpa using hne
  rw [hd]
  simp

theorem orderedFrom_iff : ∀ (lines : List String) (k : Nat),
    orderedFrom k lines = true ↔
      ∀ i (h : i < lines.length), lineNumber lines[i] = some (k + i) := by
  intro lines
  induction lines with
  | nil => intro k; simp [orderedFrom]
  | cons l ls ih =>
    intro k
    rw [orderedFrom]
    cases hln : lineNumber l with
    | none =>
      constructor
      · intro hfalse; exact absurd hfalse (by simp)
      · intro hall
        have h0 := hall 0 (by simp)
        rw [List.getElem_cons_zero, hln] at h0
        exact absurd h0 (by simp)
    | some n =>
      simp only [Bool.and_eq_true, decide_eq_true_eq]
      constructor
      · rintro ⟨hn, hrest⟩
        intro i hi
        cases i with
        | zero =>
          rw [List.getElem_cons_zero, hln, hn]
          simp
        | succ j =>
          rw [List.getElem_cons_succ]
          have hj := (ih (k + 1)).mp hrest j (by simpa using hi)
          rw [hj]
          congr 1
          omega
      · intro hall
        have h0 := hall 0 (by simp)
        rw [List.getElem_cons_zero, hln] at h0
        have hn : n = k := by simp at h0; omega
        refine ⟨hn, (ih (k + 1)).mpr ?_⟩
        intro j hj
        have hs := hall (j + 1) (by simpa using hj)
        rw [List.getElem_cons_succ] at hs
        rw [hs]
        congr 1
        omega

/-- Claim C5: the classifier returns OrderedList exactly when every line
matches `<integer>. ` with the integers forming the sequence 1, 2, 3, …
(strictly increasing from 1 with step 1); in particular the two-line block
`"1. a"` / `"3. b"` classifies as Paragraph. -/
theorem claim_C5 :
    (∀ block : String, block ≠ "" →
      (block_to_block_type block = .ordered_list ↔
        ∀ i (h : i < (pySplitlines block).length),
          lineNumber (pySplitlines block)[i] = some (i + 1)))
    ∧ block_to_block_type "1. a\n3. b" = .paragraph := by
  refine ⟨fun block hb => ⟨fun hbt => ?_, fun hall => ?_⟩, by decide⟩
  · -- If the classifier said OrderedList, the ordered check must have passed.
    simp only [block_to_block_type] at hbt
    split at hbt
    · exact absurd hbt (by simp)
    · split at hbt
      · exact absurd hbt (by simp)
      · split at hbt
        · exact absurd hbt (by simp)
        · split at hbt
          · exact absurd hbt (by simp)
          · split at hbt
            case isTrue hcond =>
              rw [Bool.and_eq_true] at hcond
              have hof := hcond.2
              intro i hi
              have hi' := (orderedFrom_iff (pySplitlines block) 1).mp hof i hi
              rw [hi']
              congr 1
              omega
            case isFalse => exact absurd hbt (by simp)
  · -- Conversely, a fully numbered block passes the ordered check and fails
    -- every earlier check, because its first character is a digit.
    obtain ⟨ls, hlines⟩ := pySplitlines_head (string_data_ne_nil hb)
    have hlen0 : 0 < (pySplitlines block).length := by rw [hlines]; simp
    have h0 := hall 0 hlen0
    simp only [hlines, List.getElem_cons_zero] at h0
    obtain ⟨d, tl0, hd0, hdig⟩ := lineNumber_head h0
    have hd0' : block.data.takeWhile (fun c => decide (c ≠ '\n')) = d :: tl0 := hd0
    obtain ⟨tl, hbd, hdne⟩ := takeWhile_head hd0'
    simp only [block_to_block_type]
    rw [pyStartsWith_head_false hbd (show ("```" : String).data = '`' :: ['`', '`'] from rfl)
      (digit_head_ne hdig '`' (by decide)), Bool.false_and]
    simp only [Bool.false_eq_true, if_false]
    rw [headingLevel_none_of_head hbd (by
      intro he; rw [he] at hdig; exact absurd hdig (by decide))]
    simp only [Option.isSome_none, Bool.false_eq_true, if_false]
    rw [hlines]
    have hfirst : (String.mk (block.data.takeWhile fun c => decide (c ≠ '\n'))).data =
        d :: tl0 := hd0
    rw [List.all_cons, pyStartsWith_head_false hfirst (show (">" : String).data = '>' :: [] from rfl)
      (digit_head_ne hdig '>' (by decide)), Bool.false_and, Bool.and_false]
    simp only [Bool.false_eq_true, if_false]
    rw [List.all_cons, pyStartsWith_head_false hfirst (show ("- " : String).data = '-' :: [' '] from rfl)
      (digit_head_ne hdig '-' (by decide)), Bool.false_and, Bool.and_false]
    simp only [Bool.false_eq_true, if_false]
    have hof : orderedFrom 1 (String.mk (block.data.takeWhile fun c => decide (c ≠ '\n')) :: ls)
        = true := by
      rw [orderedFrom_iff]
      intro i hi
      have hih := hall i (by rw [hlines]; exact hi)
      simp only [hlines] at hih
      rw [hih]
      congr 1
      omega
    rw [hof]
    simp

/-- Witness for the quantified part of C5 at the concrete ordered block
`"1. a\n2. b"`. -/
theorem claim_C5_witness :
    ("1. a\n2. b" : String) ≠ ""
    ∧ (block_to_block_type "1. a\n2. b" = .ordered_list ↔
        ∀ i (h : i < (pySplitlines "1. a\n2. b").length),
          lineNumber (pySplitlines "1. a\n2. b")[i] = some (i + 1)) :=
  ⟨by decide, claim_C5.1 "1. a\n2. b" (by decide)⟩

theorem tryPair_none {l : List Char} (h : l.head? ≠ some '[') : tryPair l = none := by
  cases l with
  | nil => rfl
  | cons c cs =>
    have hc : c ≠ '[' := by simpa using h
    rw [tryPair.eq_def]
    split
    case h_1 rest heq =>
      exact absurd (List.cons.injEq _ _ _ _ ▸ heq).1 hc
    case h_2 => rfl

theorem scanLabel_complete : ∀ {lab : List Char} (rest : List Char),
    (∀ c ∈ lab, c ≠ ']' ∧ c ≠ '[') →
    scanLabel (lab ++ ']' :: rest) = some (lab, rest) := by
  intro lab
  induction lab with
  | nil => intro rest _; simp [scanLabel]
  | cons c cs ih =>
    intro rest h
    have hc := h c (by simp)
    rw [List.cons_append, scanLabel, if_neg hc.1, if_neg hc.2,
      ih rest (fun d hd => h d (by simp [hd]))]

theorem scanUrl_complete : ∀ {url : List Char} (rest : List Char),
    (∀ c ∈ url, c ≠ ')' ∧ c ≠ '(') →
    scanUrl (url ++ ')' :: rest) = some (url, rest) := by
  intro url
  induction url with
  | nil => intro rest _; simp [scanUrl]
  | cons c cs ih =>
    intro rest h
    have hc := h c (by simp)
    rw [List.cons_append, scanUrl, if_neg hc.1, if_neg hc.2,
      ih rest (fun d hd => h d (by simp [hd]))]

theorem tryPair_complete {lab url rest : List Char}
    (hlab : ∀ c ∈ lab, c ≠ ']' ∧ c ≠ '[')
    (hurl : ∀ c ∈ url, c ≠ ')' ∧ c ≠ '(') :
    tryPair ('[' :: (lab ++ ']' :: ('(' :: (url ++ ')' :: rest)))) =
      some (String.mk lab, String.mk url, rest) := by
  have h1 := scanLabel_complete ('(' :: (url ++ ')' :: rest)) hlab
  have h2 := scanUrl_complete rest hurl
  simp only [tryPair, h1, h2]

theorem findImagesF_no_lb : ∀ (fuel : Nat) {l : List Char}, '[' ∉ l →
    findImagesF fuel l = [] := by
  intro fuel
  induction fuel with
  | zero => intro l _; cases l <;> rfl
  | succ n ih =>
    intro l h
    cases l with
    | nil => rfl
    | cons c cs =>
      have hcs : '[' ∉ cs := fun hx => h (by simp [hx])
      rw [findImagesF]
      by_cases hc : c = '!'
      · rw [if_pos hc]
        have htp : tryPair cs = none := by
          apply tryPair_none
          cases cs with
          | nil => simp
          | cons d ds =>
            have hd : d ≠ '[' := fun hd => hcs (by simp [hd])
            simpa using hd
        rw [htp]
        exact ih hcs
      · rw [if_neg hc]
        exact ih hcs

/-- The negative-lookbehind invariant: every `[` in the text is immediately
preceded by `!` (with `prev` standing for the character before the current
position). -/
def precededOk : Option Char → List Char → Prop
  | _, [] => True
  | prev, c :: rest => (c = '[' → prev = some '!') ∧ precededOk (some c) rest

theorem precededOk_of_no_lb : ∀ {l : List Char} (prev : Option Char), '[' ∉ l →
    precededOk prev l := by
  intro l
  induction l with
  | nil => intro prev _; trivial
  | cons c cs ih =>
    intro prev h
    exact ⟨fun hc => absurd hc (fun hx => h (by simp [hx])),
      ih (some c) (fun hx => h (by simp [hx]))⟩

theorem findLinksF_preceded : ∀ (fuel : Nat) {prev : Option Char} {l : List Char},
    precededOk prev l → findLinksF fuel prev l = [] := by
  intro fuel
  induction fuel with
  | zero => intro prev l _; cases l <;> rfl
  | succ n ih =>
    intro prev l h
    cases l with
    | nil => rfl
    | cons c cs =>
      obtain ⟨h1, h2⟩ := h
      rw [findLinksF]
      have hcond : (decide (c = '[') && decide (¬prev = some '!')) = false := by
        by_cases hc : c = '['
        · simp [h1 hc]
        · simp [hc]
      simp only [ne_eq, hcond, Bool.false_eq_true, if_false]
      exact ih h2

theorem precededOk_main : ∀ (a : List Char) (prev : Option Char) (mid : List Char),
    '[' ∉ a → '[' ∉ mid → precededOk prev (a ++ '!' :: '[' :: mid) := by
  intro a
  induction a with
  | nil =>
    intro prev mid _ hmid
    exact ⟨fun h => absurd h (by decide), fun _ => rfl,
      precededOk_of_no_lb (some '[') hmid⟩
  | cons c cs ih =>
    intro prev mid ha hmid
    have hc : c ≠ '[' := fun h => ha (by simp [h])
    exact ⟨fun h => absurd h hc, ih (some c) mid (fun hx => ha (by simp [hx])) hmid⟩

theorem findImagesF_main : ∀ (a : List Char) (fuel : Nat) {lab url b : List Char},
    a.length + 1 ≤ fuel → '[' ∉ a →
    (∀ c ∈ lab, c ≠ ']' ∧ c ≠ '[') → (∀ c ∈ url, c ≠ ')' ∧ c ≠ '(') → '[' ∉ b →
    findImagesF fuel (a ++ '!' :: '[' :: (lab ++ ']' :: ('(' :: (url ++ ')' :: b)))) =
      [(String.mk lab, String.mk url)] := by
  intro a
  induction a with
  | nil =>
    intro fuel lab url b hfuel _ hlab hurl hb
    cases fuel with
    | zero => omega
    | succ n =>
      rw [List.nil_append, findImagesF, if_pos rfl, tryPair_complete hlab hurl]
      show (String.mk lab, String.mk url) :: findImagesF n b = _
      rw [findImagesF_no_lb n hb]
  | cons c cs ih =>
    intro fuel lab url b hfuel ha hlab hurl hb
    have hcs : '[' ∉ cs := fun hx => ha (by simp [hx])
    have hc : c ≠ '[' := fun h => ha (by simp [h])
    cases fuel with
    | zero => simp at hfuel
    | succ n =>
      have hfuel' : cs.length + 1 ≤ n := by simp at hfuel; omega
      rw [List.cons_append, findImagesF]
      by_cases hbang : c = '!'
      · rw [if_pos hbang]
        have htp : tryPair (cs ++ '!' :: '[' :: (lab ++ ']' :: ('(' :: (url ++ ')' :: b)))) =
            none := by
          apply tryPair_none
          cases cs with
          | nil => simp
          | cons d ds =>
            have hd : d ≠ '[' := fun hd => hcs (by simp [hd])
            simpa using hd
        rw [htp]
        exact ih n hfuel' hcs hlab hurl hb
      · rw [if_neg hbang]
        exact ih n hfuel' hcs hlab hurl hb

/-- Claim C6: image syntax is never taken for a link.  On the exact string
`"![x](u)"`, link extraction returns no matches while image extraction
returns exactly `("x", "u")`; and in general, in any text
`a ++ "![" ++ lab ++ "](" ++ url ++ ")" ++ b` whose only `[` is the one of
the image markup (and whose label and url are bracket-free, as the regexes
require for a match), link extraction — whose `(?<!!)` lookbehind rejects a
`[` immediately preceded by `!` — returns nothing, while image extraction
returns exactly the one labelled pair. -/
theorem claim_C6 :
    (extract_markdown_links "![x](u)" = []
      ∧ extract_markdown_images "![x](u)" = [("x", "u")])
    ∧ (∀ a lab url b : String,
        '[' ∉ a.data → (∀ c ∈ lab.data, c ≠ ']' ∧ c ≠ '[') →
        (∀ c ∈ url.data, c ≠ ')' ∧ c ≠ '(') → '[' ∉ url.data → '[' ∉ b.data →
        extract_markdown_links (a ++ "![" ++ lab ++ "](" ++ url ++ ")" ++ b) = []
        ∧ extract_markdown_images (a ++ "![" ++ lab ++ "](" ++ url ++ ")" ++ b) =
            [(lab, url)]) := by
  refine ⟨⟨by decide, by decide⟩, fun a lab url b ha hlab hurl hurlb hb => ?_⟩
  have hdata : (a ++ "![" ++ lab ++ "](" ++ url ++ ")" ++ b).data =
      a.data ++ '!' :: '[' :: (lab.data ++ ']' :: ('(' :: (url.data ++ ')' :: b.data))) := by
    have hbang : ("![" : String).data = ['!', '['] := rfl
    have hmidstr : ("](" : String).data = [']', '('] := rfl
    have hclose : ((")" : String)).data = [')'] := rfl
    simp only [String.data_append, hbang, hmidstr, hclose]
    simp
  have hmid : '[' ∉ lab.data ++ ']' :: ('(' :: (url.data ++ ')' :: b.data)) := by
    intro hmem
    simp only [List.mem_append, List.mem_cons] at hmem
    rcases hmem with h | h | h | h | h | h
    · exact (hlab '[' h).2 rfl
    · exact absurd h (by decide)
    · exact absurd h (by decide)
    · exact hurlb h
    · exact absurd h (by decide)
    · exact hb h
  constructor
  · rw [extract_markdown_links, hdata]
    exact findLinksF_preceded _ (precededOk_main a.data none _ ha hmid)
  · rw [extract_markdown_images, hdata]
    apply findImagesF_main
    · simp
    · exact ha
    · exact hlab
    · exact hurl
    · exact hb

/-- Witness for the quantified part of C6 with context text around the image
markup: `"pre ![x](u) post"`. -/
theorem claim_C6_witness :
    ('[' ∉ ("pre " : String).data)
    ∧ (extract_markdown_links ("pre " ++ "![" ++ "x" ++ "](" ++ "u" ++ ")" ++ " post") = []
      ∧ extract_markdown_images ("pre " ++ "![" ++ "x" ++ "](" ++ "u" ++ ")" ++ " post") =
          [("x", "u")]) :=
  ⟨by decide, claim_C6.2 "pre " "x" "u" " post" (by decide) (by decide) (by decide)
    (by decide) (by decide)⟩

/-- Number of non-overlapping occurrences of a delimiter in a string, the
way `str.split` exposes it: one less than the number of split parts. -/
def delimCount (delimiter s : String) : Nat :=
  (pySplit s delimiter).length - 1

theorem pySplitGo_isSome_of_two {sep : List Char} (fuel : Nat) {l : List Char}
    (h : 2 ≤ (pySplitGo sep fuel l).length) : (findSub sep l).isSome = true := by
  cases fuel with
  | zero => simp [pySplitGo] at h
  | succ n =>
    rw [pySplitGo] at h
    cases hfs : findSub sep l with
    | none => rw [hfs] at h; simp at h
    | some p => simp [hfs]

theorem pySplit_ne_nil (s d : String) : pySplit s d ≠ [] := by
  rw [pySplit]
  split
  · simp
  · simp only [ne_eq, List.map_eq_nil_iff]
    exact pySplitGo_ne_nil _ _ _

theorem pyContains_of_count {s d : String} (h : 1 ≤ delimCount d s) :
    pyContains s d = true := by
  rw [delimCount] at h
  rw [pyContains]
  by_cases hd : d.data.isEmpty = true
  · rw [pySplit, if_pos hd] at h
    simp at h
  · rw [pySplit, if_neg hd] at h
    simp only [List.length_map] at h
    exact pySplitGo_isSome_of_two s.data.length (by omega)

theorem processDelimNode_err {d : String} {tt : TextType} {n : TextNode}
    (htype : n.text_type = .text) (hodd : Odd (delimCount d n.text)) :
    processDelimNode d tt n = .error "Invalid Markdown Syntax: unmatched delimiter" := by
  rw [processDelimNode, if_neg (by simp [htype])]
  have hcount : 1 ≤ delimCount d n.text := by
    rcases hodd with ⟨k, hk⟩
    omega
  rw [if_neg (by simp [pyContains_of_count hcount])]
  have hlen : 1 ≤ (pySplit n.text d).length :=
    List.length_pos.mpr (pySplit_ne_nil n.text d)
  have heven : (pySplit n.text d).length % 2 = 0 := by
    rw [delimCount] at hodd
    rcases hodd with ⟨k, hk⟩
    omega
  rw [if_pos heven]

theorem processDelimNode_error_msg {d : String} {tt : TextType} {n : TextNode} {e : String}
    (h : processDelimNode d tt n = .error e) :
    e = "Invalid Markdown Syntax: unmatched delimiter" := by
  rw [processDelimNode] at h
  split at h
  · simp at h
  · split at h
    · simp at h
    · dsimp only at h
      split at h
      · simp only [Except.error.injEq] at h
        exact h.symm
      · simp at h

theorem split_nodes_delimiter_err :
    ∀ {nodes : List TextNode} {d : String} {tt : TextType},
      (∃ n ∈ nodes, n.text_type = .text ∧ Odd (delimCount d n.text)) →
      split_nodes_delimiter nodes d tt =
        .error "Invalid Markdown Syntax: unmatched delimiter" := by
  intro nodes
  induction nodes with
  | nil => intro d tt h; simp at h
  | cons n ns ih =>
    intro d tt h
    obtain ⟨m, hm, hmt, hmo⟩ := h
    rw [split_nodes_delimiter]
    rcases List.mem_cons.mp hm with hm | hm
    · subst hm
      rw [processDelimNode_err hmt hmo]
      rfl
    · cases hpn : processDelimNode d tt n with
      | error e =>
        rw [processDelimNode_error_msg hpn]
        rfl
      | ok l =>
        rw [ih ⟨m, hm, hmt, hmo⟩]
        rfl

theorem splitImageNode_no_lb {n : TextNode} (h : '[' ∉ n.text.data) :
    splitImageNode n = [n] := by
  rw [splitImageNode]
  split
  · rfl
  · have himg : extract_markdown_images n.text = [] := by
      rw [extract_markdown_images]
      exact findImagesF_no_lb _ h
    simp [himg]

theorem splitLinkNode_no_lb {n : TextNode} (h : '[' ∉ n.text.data) :
    splitLinkNode n = [n] := by
  rw [splitLinkNode]
  split
  · rfl
  · have hlnk : extract_markdown_links n.text = [] := by
      rw [extract_markdown_links]
      exact findLinksF_preceded _ (precededOk_of_no_lb none h)
    simp [hlnk]

/-- Claim C1, counterexample: the inline string `"**a_b**"` contains one
(an odd count of) `_`, yet `text_to_textnodes` returns a node sequence
(`[Bold "a_b"]`) instead of raising: the `_` lies inside a span already
consumed by the earlier bold pass, and the italic pass skips non-plain
nodes. -/
theorem claim_C1_counterexample :
    text_to_textnodes "**a_b**" = .ok [⟨"a_b", .bold, none⟩]
    ∧ Odd (delimCount "_" "**a_b**") :=
  ⟨by decide, ⟨0, by decide⟩⟩

/-- Claim C1, amended: the delimiter-balance error is raised per Plain text
run, not per whole inline string.  Whenever some Plain node reaching a
delimiter pass has an odd count of that pass's delimiter in its own text,
the pass raises the unmatched-delimiter error; in particular a whole inline
string free of `[` (so that the image and link passes leave it as one Plain
node) with an odd count of `**` makes the tokenizer raise.  An odd-count
delimiter confined inside an image label, link label, or a span consumed by
an earlier pass does not raise (see the counterexample). -/
theorem claim_C1_amended :
    (∀ (nodes : List TextNode) (delimiter : String) (text_type : TextType),
        (∃ n ∈ nodes, n.text_type = .text ∧ Odd (delimCount delimiter n.text)) →
        split_nodes_delimiter nodes delimiter text_type =
          .error "Invalid Markdown Syntax: unmatched delimiter")
    ∧ (∀ s : String, '[' ∉ s.data → Odd (delimCount "**" s) →
        text_to_textnodes s = .error "Invalid Markdown Syntax: unmatched delimiter") := by
  refine ⟨fun nodes d tt h => split_nodes_delimiter_err h, fun s hlb hodd => ?_⟩
  have h1 : split_nodes_image [⟨s, .text, none⟩] = [⟨s, .text, none⟩] := by
    show splitImageNode ⟨s, .text, none⟩ ++ split_nodes_image [] = _
    rw [splitImageNode_no_lb hlb]
    rfl
  have h2 : split_nodes_link [⟨s, .text, none⟩] = [⟨s, .text, none⟩] := by
    show splitLinkNode ⟨s, .text, none⟩ ++ split_nodes_link [] = _
    rw [splitLinkNode_no_lb hlb]
    rfl
  have herr : split_nodes_delimiter [⟨s, .text, none⟩] "**" TextType.bold =
      .error "Invalid Markdown Syntax: unmatched delimiter" :=
    split_nodes_delimiter_err ⟨⟨s, .text, none⟩, by simp, rfl, hodd⟩
  unfold text_to_textnodes
  dsimp only
  rw [h1, h2, herr]
  rfl

/-- Witness for C1: a lone italic delimiter in a plain node errors, and a
bracket-free string with a lone `**` makes the whole tokenizer error. -/
theorem claim_C1_witness :
    split_nodes_delimiter [⟨"a_b", .text, none⟩] "_" .italic =
        .error "Invalid Markdown Syntax: unmatched delimiter"
    ∧ text_to_textnodes "**x" = .error "Invalid Markdown Syntax: unmatched delimiter" :=
  ⟨claim_C1_amended.1 [⟨"a_b", .text, none⟩] "_" .italic
      ⟨⟨"a_b", .text, none⟩, by simp, rfl, ⟨0, by decide⟩⟩,
    claim_C1_amended.2 "**x" (by decide) ⟨0, by decide⟩⟩

end SiteGen
